import Mathlib

/-!
Verification development for the publication-portfolio page script
(`assets/script.js` and its near-identical variant). The JavaScript is
shallowly embedded: strings are Lean `String`s viewed as lists of
characters, fields that may be `undefined` are `Option`s, and the
DOM-reading entry points are modelled as pure functions of the values
they read from the page controls. Machine-level JS number behaviour
that the script actually exercises (`NaN` from subtracting `undefined`,
truthiness of `""` and `0`, `String(undefined) = "undefined"`) is
modelled explicitly at each use site.
-/

namespace Portfolio

/-! ### Model of the JavaScript string primitives used by the script -/

/-- Model of `String.prototype.toLowerCase` on the ASCII range: uppercase
ASCII letters map to lowercase, every other character is kept. -/
def jsCharToLower (c : Char) : Char :=
  if 'A' ≤ c ∧ c ≤ 'Z' then Char.ofNat (c.toNat + 32) else c

/-- `s.toLowerCase()`. -/
def jsToLower (s : String) : String := ⟨s.data.map jsCharToLower⟩

/-- The whitespace characters stripped by `String.prototype.trim`
(ASCII fragment: space, tab, LF, VT, FF, CR). -/
def isJsWhitespace (c : Char) : Bool :=
  c == ' ' || c == '\t' || c == '\n' || c == '\r' ||
  c == Char.ofNat 11 || c == Char.ofNat 12

/-- `s.trim()`: strip leading and trailing whitespace. -/
def jsTrim (s : String) : String :=
  ⟨((s.data.dropWhile isJsWhitespace).reverse.dropWhile isJsWhitespace).reverse⟩

/-- `leadMatch n h`: the character list `n` is a leading segment of `h`. -/
def leadMatch : List Char → List Char → Bool
  | [], _ => true
  | _ :: _, [] => false
  | a :: as, b :: bs => a == b && leadMatch as bs

/-- `subMatch n h`: `n` occurs contiguously somewhere in `h`. -/
def subMatch (needle : List Char) : List Char → Bool
  | [] => leadMatch needle []
  | c :: cs => leadMatch needle (c :: cs) || subMatch needle cs

/-- Model of `hay.includes(needle)`. -/
def strIncludes (hay needle : String) : Bool := subMatch needle.data hay.data

/-- Model of `s.startsWith(pre)`. -/
def strStartsWith (s pre : String) : Bool := leadMatch pre.data s.data

/-- Character-list comparison; model of `String.prototype.localeCompare`
with locale effects abstracted to code-point order. -/
def charListCmp : List Char → List Char → Int
  | [], [] => 0
  | [], _ :: _ => -1
  | _ :: _, [] => 1
  | a :: as, b :: bs => if a < b then -1 else if b < a then 1 else charListCmp as bs

/-- `a.localeCompare(b)` as a signed integer. -/
def strCmp (a b : String) : Int := charListCmp a.data b.data

/-- Model of `String(x)` on an optional JS number: `undefined` prints
as `"undefined"`, a number prints in decimal. -/
def yearString : Option Int → String
  | none => "undefined"
  | some y => toString y

/-- Model of `x || ""` and of `x ?? ""` on an optional string (the only
falsy string is `""`, so the two operators agree here). -/
def orEmpty : Option String → String
  | none => ""
  | some s => s

/-- Model of the interpolation `${p.year || ""}`: `undefined` and `0`
are falsy and render as the empty string. -/
def yearDisp : Option Int → String
  | none => ""
  | some y => if y = 0 then "" else toString y

/-- Model of the raw interpolation `${x}` of an optional string:
`undefined` renders as `"undefined"`. -/
def optTemplate : Option String → String
  | none => "undefined"
  | some s => s

/-! ### Data model (§3 of the spec) -/

/-- One publication record of `data/publications.json`: `title` is
required, every other field optional. -/
structure Publication where
  title : String
  authors : Option String := none
  abstract : Option String := none
  venue : Option String := none
  year : Option Int := none
  doi : Option String := none
  link : Option String := none
  bibtex : Option String := none
deriving DecidableEq, Repr

/-! ### Filter engine (`applyFilters`, script.js lines 52–62) -/

/-- The searchable text of a record built inside `applyFilters`:
`` `${p.title} ${p.authors ?? ""} ${p.abstract ?? ""} ${p.venue ?? ""}` ``. -/
def pubText (p : Publication) : String :=
  p.title ++ " " ++ orEmpty p.authors ++ " " ++ orEmpty p.abstract ++ " " ++ orEmpty p.venue

/-- `applyFilters` as a function of the full list and the raw values of
the two filter controls. As in the code, the query control value is
trimmed and lower-cased before matching, and the record text is
lower-cased before the substring test. -/
def applyFilters (pubs : List Publication) (yearVal rawQuery : String) : List Publication :=
  let query := jsToLower (jsTrim rawQuery)
  pubs.filter fun p =>
    (yearVal == "" || yearString p.year == yearVal)
      && (query == "" || strIncludes (jsToLower (pubText p)) query)

/-! ### Sort step (script.js line 29) -/

/-- The sort comparator `(b.year - a.year) || a.title.localeCompare(b.title)`.
`b.year - a.year` is `NaN` (falsy) when either year is `undefined`, and `0`
(falsy) when the years are equal; in both cases the title comparison decides. -/
def cmpPub (a b : Publication) : Int :=
  match a.year, b.year with
  | some x, some y => if y - x = 0 then strCmp a.title b.title else y - x
  | _, _ => strCmp a.title b.title

/-- "`a` may come no later than `b`" under the comparator. -/
def pubLE (a b : Publication) : Prop := cmpPub a b ≤ 0

instance : DecidableRel pubLE := fun a b => (inferInstance : Decidable (cmpPub a b ≤ 0))

/-- `state.publications.sort(comparator)`: JS `Array.prototype.sort` is a
stable comparison sort, modelled by stable insertion sort. -/
def sortPubs (l : List Publication) : List Publication := List.insertionSort pubLE l

/-! ### Shelf rendering (`renderShelf` / `escapeHTML`, script.js lines 65–121, 187–191) -/

/-- The double-quote character. -/
def quoteChar : Char := Char.ofNat 34

/-- The apostrophe character. -/
def aposChar : Char := Char.ofNat 39

/-- The per-character replacement of `escapeHTML`:
`/[&<>\"']/g` mapped through the replacement table. -/
def escapeChar (c : Char) : String :=
  if c = '&' then "&amp;"
  else if c = '<' then "&lt;"
  else if c = '>' then "&gt;"
  else if c = quoteChar then "&quot;"
  else if c = aposChar then "&#39;"
  else String.singleton c

/-- `escapeHTML` applied character by character to a character list. -/
def escapeChars : List Char → List Char
  | [] => []
  | c :: cs => (escapeChar c).data ++ escapeChars cs

/-- `escapeHTML(str)` (script.js lines 187–191). -/
def escapeHTML (s : String) : String := ⟨escapeChars s.data⟩

/-- The four pieces of record-derived text interpolated into the card
template of `renderShelf`, in template order: escaped title, escaped
`authors || ""`, escaped `abstract || ""`, and the raw `${p.year || ""}`. -/
def cardInsertions (p : Publication) : List String :=
  [escapeHTML p.title, escapeHTML (orEmpty p.authors),
    escapeHTML (orEmpty p.abstract), yearDisp p.year]

/-- The `card.innerHTML` template literal of `renderShelf` (lines 79–88),
with the record-derived pieces interpolated exactly as in the code. -/
def cardMarkup (p : Publication) : String :=
  "\n      <div class=\"book__spine\"></div>\n      <div class=\"book__title\">"
    ++ escapeHTML p.title
    ++ "</div>\n      <div class=\"book__meta\">"
    ++ escapeHTML (orEmpty p.authors)
    ++ "</div>\n      <div class=\"book__abstract\">"
    ++ escapeHTML (orEmpty p.abstract)
    ++ "</div>\n      <div class=\"book__actions\">\n        <span class=\"book__year\">"
    ++ yearDisp p.year
    ++ "</span>\n        <button class=\"book__btn\">Details</button>\n      </div>\n    "

/-! ### Modal controller (`openModal`, script.js lines 124–173) -/

/-- The mutable parts of the modal DOM that `openModal` touches: the four
text fields, and the `href`/`display` of the DOI and external links. -/
structure ModalState where
  title : String
  authors : String
  venueYear : String
  abstract : String
  doiHref : String
  doiVisible : Bool
  linkHref : String
  linkVisible : Bool
deriving DecidableEq, Repr

/-- `[paper.venue, paper.year].filter(Boolean).join(" · ")`: falsy entries
(`undefined`, `""`, `0`) are dropped; a surviving year is stringified. -/
def venueYearText (p : Publication) : String :=
  String.intercalate " · "
    ((match p.venue with
      | some v => if v = "" then [] else [v]
      | none => []) ++
     (match p.year with
      | some y => if y = 0 then [] else [toString y]
      | none => []))

/-- The DOI `href` assigned when `paper.doi` is truthy:
`paper.doi.startsWith("http") ? paper.doi : "https://doi.org/" + paper.doi`. -/
def doiHrefOf (d : String) : String :=
  if strStartsWith d "http" then d else "https://doi.org/" ++ d

/-- `openModal(paper)` as a transformer of the modal DOM state. Text fields
are always overwritten; the DOI and link anchors get a fresh `href` and
`display:inline-block` only when the corresponding field is truthy, and are
merely hidden (stale `href` kept) otherwise. -/
def openModal (paper : Publication) (m : ModalState) : ModalState :=
  let m1 : ModalState :=
    { m with
      title := paper.title
      authors := orEmpty paper.authors
      venueYear := venueYearText paper
      abstract := orEmpty paper.abstract }
  let m2 : ModalState :=
    match paper.doi with
    | some d =>
        if d = "" then { m1 with doiVisible := false }
        else { m1 with doiHref := doiHrefOf d, doiVisible := true }
    | none => { m1 with doiVisible := false }
  match paper.link with
  | some l =>
      if l = "" then { m2 with linkVisible := false }
      else { m2 with linkHref := l, linkVisible := true }
  | none => { m2 with linkVisible := false }

/-- What a user can see of the modal: the text fields, and the link
`href`s only when their anchor is displayed. -/
structure ModalVisible where
  title : String
  authors : String
  venueYear : String
  abstract : String
  doi : Option String
  link : Option String
deriving DecidableEq, Repr

/-- The visible projection of a modal state. -/
def visibleView (m : ModalState) : ModalVisible :=
  { title := m.title
    authors := m.authors
    venueYear := m.venueYear
    abstract := m.abstract
    doi := if m.doiVisible then some m.doiHref else none
    link := if m.linkVisible then some m.linkHref else none }

/-! ### Copy-BibTeX action (script.js lines 154–172) -/

/-- `paper.authors?.split(" ")[0] || "ref"`. -/
def refName (p : Publication) : String :=
  match p.authors with
  | none => "ref"
  | some a =>
      let w := (a.splitOn " ").headD ""
      if w = "" then "ref" else w

/-- The synthesized `@article` citation template of lines 160–165. -/
def synthBibtex (p : Publication) : String :=
  "@article\x7b" ++ refName p ++ yearDisp p.year ++ ",\n  title=\x7b" ++ p.title
    ++ "\x7d,\n  author=\x7b" ++ optTemplate p.authors
    ++ "\x7d,\n  year=\x7b" ++ yearString p.year
    ++ "\x7d,\n  journal=\x7b" ++ orEmpty p.venue ++ "\x7d\n\x7d"

/-- The string handed to `navigator.clipboard.writeText`: the stored
`bibtex` when truthy (present and non-empty), the synthesized citation
otherwise (`if (!bibtex)`). -/
def copiedBibtex (p : Publication) : String :=
  match p.bibtex with
  | some b => if b = "" then synthBibtex p else b
  | none => synthBibtex p

/-! ### Data loader (script.js lines 20–30) -/

/-- Outcome of `await fetch(...)` followed by `await res.json()`: either a
parsed record list, or a thrown error (network failure or malformed JSON). -/
inductive FetchResult
  | success (records : List Publication)
  | failure (err : String)

/-- The `try`/`catch` of lines 20–26 as a pure function: first component is
`state.publications` afterwards, second is the console error log. -/
def loadPublications : FetchResult → List Publication × List String
  | .success rs => (rs, [])
  | .failure e => ([], ["❌ Failed to load publications.json " ++ e])

/-- The loaded-and-sorted publication list (lines 20–29): the sort of
line 29 runs on whatever the `try`/`catch` produced. -/
def initPublications (r : FetchResult) : List Publication :=
  sortPubs (loadPublications r).1

/-! ### Year filter options (`populateYearFilter`, script.js lines 38–43) -/

/-- First-occurrence deduplication, the insertion-order behaviour of
`[...new Set(items.map(p => p.year))]`. -/
def dedupYears (seen : List (Option Int)) : List (Option Int) → List (Option Int)
  | [] => []
  | x :: xs => if x ∈ seen then dedupYears seen xs else x :: dedupYears (x :: seen) xs

/-- The `.sort((a, b) => b - a)` comparator over optional years:
`b - a` is `NaN` when either operand is `undefined`, and the sort
machinery treats a `NaN` comparator result as `0`. -/
def cmpYearOpt (a b : Option Int) : Int :=
  match a, b with
  | some x, some y => y - x
  | _, _ => 0

/-- "no later than" for year option values. -/
def yearOptLE (a b : Option Int) : Prop := cmpYearOpt a b ≤ 0

instance : DecidableRel yearOptLE := fun a b => (inferInstance : Decidable (cmpYearOpt a b ≤ 0))

/-- The `value` attributes of the options `populateYearFilter` puts into
the year selector: `""` (All) followed by the stringified deduplicated
years, sorted descending. -/
def yearOptionValues (items : List Publication) : List String :=
  "" :: (List.insertionSort yearOptLE (dedupYears [] (items.map (·.year)))).map yearString

/-! ### Spec-side formulations and concrete records

The predicates below follow the wording of the specification claims,
to be compared against the code-derived functions above. -/

/-- The year predicate as the filtering claim words it: trivially true for
the empty selector value, otherwise the record's year converted to a string
must equal the selected value. -/
def yearPredSpec (yearVal : String) (p : Publication) : Prop :=
  yearVal = "" ∨ yearString p.year = yearVal

/-- The text predicate as the filtering claim words it for query `q`:
trivially true for the empty query, otherwise the lower-cased query must be
a substring of the lower-cased searchable record text. -/
def textPredSpec (q : String) (p : Publication) : Prop :=
  q = "" ∨ strIncludes (jsToLower (pubText p)) (jsToLower q) = true

/-- The order the sorting claim describes: non-increasing by year, and
ascending by title (under the `localeCompare` model) when years agree. -/
def specSortRel (a b : Publication) : Prop :=
  ∃ x y, a.year = some x ∧ b.year = some y ∧ y ≤ x ∧ (x = y → strCmp a.title b.title ≤ 0)

/-- A raw character that can open or close markup or an attribute value:
the characters the escaping claim forbids in record-derived output. -/
def markupChar (c : Char) : Prop :=
  c = '<' ∨ c = '>' ∨ c = quoteChar ∨ c = aposChar

instance : DecidablePred markupChar := fun c => by unfold markupChar; infer_instance

instance (yearVal : String) (p : Publication) : Decidable (yearPredSpec yearVal p) := by
  unfold yearPredSpec
  infer_instance

instance (q : String) (p : Publication) : Decidable (textPredSpec q p) := by
  unfold textPredSpec
  infer_instance

/-- Minimal record used by counterexamples and witnesses. -/
def pX : Publication := { title := "x" }

/-- A record whose optional `year` is absent. -/
def pNoYear : Publication := { title := "A" }

/-- A record whose `bibtex` field is present but empty (falsy in JS). -/
def pEmptyBib : Publication := { title := "T", bibtex := some "" }

/-- A record whose `doi` field is present but empty (falsy in JS). -/
def pDoiEmpty : Publication := { title := "T", doi := some "" }

/-- A record whose title carries a markup-injection payload. -/
def pEvil : Publication := { title := "<script>alert(1)</script>" }

/-- The records of the sorting example in the spec. -/
def exB : Publication := { title := "B", year := some 2020 }

/-- See `exB`. -/
def exA : Publication := { title := "A", year := some 2020 }

/-- See `exB`. -/
def exC : Publication := { title := "C", year := some 2021 }

/-- A blank modal state. -/
def m0 : ModalState := ⟨"", "", "", "", "", false, "", false⟩


/-! ### Helper lemmas: strings and substring search -/

theorem data_eq_nil_iff (s : String) : s.data = [] ↔ s = "" := by
  cases s with
  | mk d =>
      constructor
      · intro h
        rw [show d = [] from h]
      · intro h
        rw [h]

theorem jsToLower_eq_empty_iff (s : String) : jsToLower s = "" ↔ s = "" := by
  unfold jsToLower
  constructor
  · intro h
    have hd : s.data.map jsCharToLower = [] := congrArg String.data h
    rw [← data_eq_nil_iff]
    exact List.map_eq_nil_iff.mp hd
  · intro h
    rw [h]
    rfl

theorem subMatch_nil_needle (h : List Char) : subMatch [] h = true := by
  cases h <;> rfl

theorem leadMatch_self_append : ∀ n s : List Char, leadMatch n (n ++ s) = true
  | [], _ => rfl
  | a :: as, s => by
      show ((a == a) && leadMatch as (as ++ s)) = true
      simp [leadMatch_self_append as s]

theorem subMatch_self_append (n s : List Char) : subMatch n (n ++ s) = true := by
  cases n with
  | nil => exact subMatch_nil_needle _
  | cons a as =>
      show (leadMatch (a :: as) ((a :: as) ++ s) || subMatch (a :: as) (as ++ s)) = true
      rw [leadMatch_self_append]
      rfl

theorem subMatch_cons_of (n : List Char) (c : Char) (cs : List Char)
    (h : subMatch n cs = true) : subMatch n (c :: cs) = true := by
  cases n with
  | nil => exact subMatch_nil_needle _
  | cons a as =>
      show (leadMatch (a :: as) (c :: cs) || subMatch (a :: as) cs) = true
      rw [h]
      simp

theorem subMatch_append_left (n : List Char) : ∀ pre rest : List Char,
    subMatch n rest = true → subMatch n (pre ++ rest) = true
  | [], _, h => h
  | c :: cs, rest, h => subMatch_cons_of n c (cs ++ rest) (subMatch_append_left n cs rest h)

theorem strIncludes_parts (pre mid post : String) :
    strIncludes (pre ++ mid ++ post) mid = true := by
  unfold strIncludes
  rw [String.data_append, String.data_append, List.append_assoc]
  exact subMatch_append_left _ _ _ (subMatch_self_append _ _)

/-! ### Helper lemmas: the comparator and stable sorting -/

theorem charListCmp_swap : ∀ l m : List Char, charListCmp m l = -charListCmp l m
  | [], [] => rfl
  | [], _ :: _ => rfl
  | _ :: _, [] => rfl
  | a :: as, b :: bs => by
      unfold charListCmp
      rcases lt_trichotomy a b with h | h | h
      · simp [h, asymm h]
      · subst h
        simp [lt_irrefl, charListCmp_swap as bs]
      · simp [h, asymm h]

theorem charListCmp_le_total (l m : List Char) :
    charListCmp l m ≤ 0 ∨ charListCmp m l ≤ 0 := by
  rcases le_or_lt (charListCmp l m) 0 with h | h
  · exact Or.inl h
  · right
    rw [charListCmp_swap]
    omega

theorem charListCmp_le_trans : ∀ l m n : List Char,
    charListCmp l m ≤ 0 → charListCmp m n ≤ 0 → charListCmp l n ≤ 0
  | [], m, n, _, _ => by cases n <;> simp [charListCmp]
  | _ :: _, [], _, h1, _ => by simp [charListCmp] at h1
  | _ :: _, _ :: _, [], _, h2 => by simp [charListCmp] at h2
  | a :: as, b :: bs, c :: cs, h1, h2 => by
      unfold charListCmp at h1 h2 ⊢
      rcases lt_trichotomy a b with hab | hab | hab
      · rcases lt_trichotomy b c with hbc | hbc | hbc
        · simp [lt_trans hab hbc]
        · subst hbc
          simp [hab]
        · simp [asymm hbc, hbc] at h2
      · subst hab
        rcases lt_trichotomy a c with hac | hac | hac
        · simp [hac]
        · subst hac
          simp only [lt_irrefl, if_false] at h1 h2 ⊢
          exact charListCmp_le_trans as bs cs h1 h2
        · simp [asymm hac, hac] at h2
      · simp [asymm hab, hab] at h1

theorem strCmp_le_total (a b : String) : strCmp a b ≤ 0 ∨ strCmp b a ≤ 0 :=
  charListCmp_le_total a.data b.data

theorem strCmp_le_trans {a b c : String} (h1 : strCmp a b ≤ 0) (h2 : strCmp b c ≤ 0) :
    strCmp a c ≤ 0 :=
  charListCmp_le_trans a.data b.data c.data h1 h2

theorem sorted_orderedInsert_of {α : Type _} (r : α → α → Prop) [DecidableRel r] (a : α)
    (l : List α) (hs : l.Sorted r)
    (htot : ∀ b ∈ l, r a b ∨ r b a)
    (htrans : ∀ b ∈ l, ∀ c ∈ l, r a b → r b c → r a c) :
    (List.orderedInsert r a l).Sorted r := by
  induction l with
  | nil => simp [List.orderedInsert]
  | cons b t ih =>
      rw [List.sorted_cons] at hs
      unfold List.orderedInsert
      split
      · rename_i hab
        rw [List.sorted_cons]
        refine ⟨fun x hx => ?_, List.sorted_cons.mpr hs⟩
        rcases List.mem_cons.mp hx with rfl | hxt
        · exact hab
        · exact htrans b (by simp) x (by simp [hxt]) hab (hs.1 x hxt)
      · rename_i hab
        rw [List.sorted_cons]
        constructor
        · intro x hx
          rcases (List.mem_orderedInsert r).mp hx with rfl | hxt
          · rcases htot b (by simp) with h | h
            · exact absurd h hab
            · exact h
          · exact hs.1 x hxt
        · exact ih hs.2 (fun x hx => htot x (by simp [hx]))
            (fun x hx y hy hxy hyz => htrans x (by simp [hx]) y (by simp [hy]) hxy hyz)

theorem sorted_insertionSort_of {α : Type _} (r : α → α → Prop) [DecidableRel r] (l : List α)
    (htot : ∀ a ∈ l, ∀ b ∈ l, r a b ∨ r b a)
    (htrans : ∀ a ∈ l, ∀ b ∈ l, ∀ c ∈ l, r a b → r b c → r a c) :
    (List.insertionSort r l).Sorted r := by
  induction l with
  | nil => simp
  | cons a t ih =>
      unfold List.insertionSort
      have hmem : ∀ x, x ∈ List.insertionSort r t → x ∈ t :=
        fun x hx => (List.mem_insertionSort r).mp hx
      apply sorted_orderedInsert_of
      · exact ih (fun x hx y hy => htot x (by simp [hx]) y (by simp [hy]))
          (fun x hx y hy z hz => htrans x (by simp [hx]) y (by simp [hy]) z (by simp [hz]))
      · intro b hb
        exact htot a (by simp) b (by simp [hmem b hb])
      · intro b hb c hc
        exact htrans a (by simp) b (by simp [hmem b hb]) c (by simp [hmem c hc])

theorem pubLE_iff_some {a b : Publication} {x y : Int}
    (ha : a.year = some x) (hb : b.year = some y) :
    pubLE a b ↔ (y < x ∨ (x = y ∧ strCmp a.title b.title ≤ 0)) := by
  unfold pubLE cmpPub
  rw [ha, hb]
  dsimp only
  split
  · rename_i h
    constructor
    · intro hc
      right
      exact ⟨by omega, hc⟩
    · rintro (h1 | ⟨h1, h2⟩)
      · omega
      · exact h2
  · rename_i h
    constructor
    · intro hc
      left
      omega
    · rintro (h1 | ⟨h1, h2⟩)
      · omega
      · omega

/-! ### C2: the sort step -/

/-- C2: for every record list in which each record carries a year (when a
year is absent the JS comparator returns `NaN` for some pairs and the sort
order is implementation-defined), the sorted output is ordered by the
claimed relation — non-increasing year, ties in ascending title order —
and is a permutation of the input; and the spec's concrete example sorts
exactly as stated. -/
theorem c2_sort_order :
    (∀ l : List Publication, (∀ p ∈ l, p.year ≠ none) →
      (sortPubs l).Sorted specSortRel ∧ (sortPubs l).Perm l) ∧
    sortPubs [exB, exA, exC] = [exC, exA, exB] := by
  constructor
  · intro l hl
    have hyear : ∀ p ∈ l, ∃ x, p.year = some x := by
      intro p hp
      rcases hq : p.year with _ | x
      · exact absurd hq (hl p hp)
      · exact ⟨x, rfl⟩
    have htot : ∀ a ∈ l, ∀ b ∈ l, pubLE a b ∨ pubLE b a := by
      intro a ha b hb
      obtain ⟨x, hx⟩ := hyear a ha
      obtain ⟨y, hy⟩ := hyear b hb
      rw [pubLE_iff_some hx hy, pubLE_iff_some hy hx]
      rcases lt_trichotomy x y with h | h | h
      · right
        left
        exact h
      · rcases strCmp_le_total a.title b.title with hc | hc
        · left
          right
          exact ⟨h, hc⟩
        · right
          right
          exact ⟨h.symm, hc⟩
      · left
        left
        exact h
    have htrans : ∀ a ∈ l, ∀ b ∈ l, ∀ c ∈ l, pubLE a b → pubLE b c → pubLE a c := by
      intro a ha b hb c hc hab hbc
      obtain ⟨x, hx⟩ := hyear a ha
      obtain ⟨y, hy⟩ := hyear b hb
      obtain ⟨z, hz⟩ := hyear c hc
      rw [pubLE_iff_some hx hy] at hab
      rw [pubLE_iff_some hy hz] at hbc
      rw [pubLE_iff_some hx hz]
      rcases hab with h1 | ⟨h1, h1c⟩ <;> rcases hbc with h2 | ⟨h2, h2c⟩
      · left
        omega
      · left
        omega
      · left
        omega
      · right
        exact ⟨by omega, strCmp_le_trans h1c h2c⟩
    have hsorted : (sortPubs l).Sorted pubLE := sorted_insertionSort_of pubLE l htot htrans
    have hperm : (sortPubs l).Perm l := List.perm_insertionSort pubLE l
    refine ⟨?_, hperm⟩
    refine List.Pairwise.imp_of_mem ?_ hsorted
    intro a b hma hmb hab
    obtain ⟨x, hx⟩ := hyear a (hperm.subset hma)
    obtain ⟨y, hy⟩ := hyear b (hperm.subset hmb)
    rcases (pubLE_iff_some hx hy).mp hab with h | ⟨h1, h2⟩
    · exact ⟨x, y, hx, hy, by omega, fun he => absurd h (by omega)⟩
    · exact ⟨x, y, hx, hy, le_of_eq h1.symm, fun _ => h2⟩
  · decide

/-- Witness for C2 at the spec's concrete example list. -/
theorem c2_sort_order_witness :
    (sortPubs [exB, exA, exC]).Sorted specSortRel ∧
      (sortPubs [exB, exA, exC]).Perm [exB, exA, exC] :=
  c2_sort_order.1 [exB, exA, exC] (by decide)

/-! ### C1, C4, C8, C10: the filter engine -/

/-- C1: the claim states that a record passes `applyFilters` iff the year
predicate and the text predicate hold for the query as given. This is false
as stated: the code trims the query control value before matching, so the
query `" x"` (leading space) matches the record titled `"x"` even though
`" x"` is not a substring of the record's searchable text. -/
theorem c1_counterexample :
    ¬ (pX ∈ applyFilters [pX] "" " x" ↔
        (pX ∈ [pX] ∧ yearPredSpec "" pX ∧ textPredSpec " x" pX)) := by
  decide

/-- C1 (amended): a record appears in the output of `applyFilters` iff it is
in the input list and both the year predicate and the text predicate hold,
where the text predicate receives the whitespace-trimmed query (the code
trims the control value before the emptiness test and the substring match). -/
theorem c1_filter_membership (pubs : List Publication) (yearVal rawQuery : String)
    (p : Publication) :
    p ∈ applyFilters pubs yearVal rawQuery ↔
      p ∈ pubs ∧ yearPredSpec yearVal p ∧ textPredSpec (jsTrim rawQuery) p := by
  unfold applyFilters yearPredSpec textPredSpec
  rw [List.mem_filter]
  simp only [Bool.and_eq_true, Bool.or_eq_true, beq_iff_eq, jsToLower_eq_empty_iff, and_assoc]

/-- C4: the filtered output is a sublist of the full input list — a subset
preserving the records' relative order — and every record of the output is
literally a record of the input (fields unchanged; filtering mutates
nothing). -/
theorem c4_filter_sublist (pubs : List Publication) (yearVal rawQuery : String) :
    List.Sublist (applyFilters pubs yearVal rawQuery) pubs ∧
    ∀ p, p ∈ applyFilters pubs yearVal rawQuery → p ∈ pubs := by
  constructor
  · exact List.filter_sublist pubs
  · intro p hp
    exact (List.filter_sublist pubs).subset hp

/-- Witness for C4 at a concrete input. -/
theorem c4_filter_sublist_witness : pX ∈ [pX] :=
  (c4_filter_sublist [pX] "" "").2 pX (by decide)

/-- C8: `applyFilters` is a pure function of its inputs — re-applying the
same inputs yields an identical output — and with both controls empty it
returns the full list unchanged. -/
theorem c8_filter_pure_identity (pubs : List Publication) :
    (∀ yearVal rawQuery : String,
      applyFilters pubs yearVal rawQuery = applyFilters pubs yearVal rawQuery) ∧
    applyFilters pubs "" "" = pubs := by
  refine ⟨fun _ _ => rfl, ?_⟩
  unfold applyFilters
  exact List.filter_eq_self.mpr fun p _ => rfl

/-- C10: the claim states that a record with an absent `year` is excluded
whenever a non-empty year value is selected, because
`String(p.year) === yearVal` "can never hold for a missing year". That is
false: `String(undefined)` is `"undefined"`, and `populateYearFilter` builds
an option whose value is `"undefined"` precisely when such a record exists,
so selecting that option keeps the record. -/
theorem c10_counterexample :
    "undefined" ∈ yearOptionValues [pNoYear] ∧ ("undefined" : String) ≠ "" ∧
    pNoYear ∈ applyFilters [pNoYear] "undefined" "" := by
  decide

/-- C10 (amended): a record whose `year` is absent is excluded from the
filtered output whenever the selected year value is a non-empty string
other than `"undefined"` — in particular for every actual year's option. -/
theorem c10_missing_year_excluded (pubs : List Publication) (yearVal rawQuery : String)
    (p : Publication) (hy : p.year = none) (hne : yearVal ≠ "")
    (hnu : yearVal ≠ "undefined") :
    p ∉ applyFilters pubs yearVal rawQuery := by
  intro hmem
  unfold applyFilters at hmem
  rw [List.mem_filter] at hmem
  have h := hmem.2
  rw [hy] at h
  simp only [Bool.and_eq_true, Bool.or_eq_true, beq_iff_eq, yearString] at h
  rcases h.1 with h1 | h1
  · exact hne h1
  · exact hnu h1.symm

/-- Witness for C10 (amended) at a concrete input. -/
theorem c10_missing_year_excluded_witness : pNoYear ∉ applyFilters [pNoYear] "2020" "" :=
  c10_missing_year_excluded [pNoYear] "2020" "" pNoYear rfl (by decide) (by decide)

/-! ### C5: the data loader -/

/-- C5: the loader is a total function of the fetch outcome (it never
raises): on any failure the publication list is empty and the failure is
logged; on success it yields exactly the sorted record list, a permutation
of the fetched records. -/
theorem c5_loader_degrades :
    (∀ e, initPublications (.failure e) = [] ∧ (loadPublications (.failure e)).2 ≠ []) ∧
    (∀ rs, initPublications (.success rs) = sortPubs rs ∧
      (initPublications (.success rs)).Perm rs) := by
  constructor
  · intro e
    exact ⟨rfl, by simp [loadPublications]⟩
  · intro rs
    exact ⟨rfl, List.perm_insertionSort pubLE rs⟩

/-! ### Helper lemmas: escaping and decimal rendering -/

theorem escapeChar_no_markup (c : Char) : ∀ d ∈ (escapeChar c).data, ¬ markupChar d := by
  intro d hd
  unfold escapeChar at hd
  by_cases h1 : c = '&'
  · rw [if_pos h1] at hd
    exact (by decide : ∀ x ∈ ("&amp;" : String).data, ¬ markupChar x) d hd
  rw [if_neg h1] at hd
  by_cases h2 : c = '<'
  · rw [if_pos h2] at hd
    exact (by decide : ∀ x ∈ ("&lt;" : String).data, ¬ markupChar x) d hd
  rw [if_neg h2] at hd
  by_cases h3 : c = '>'
  · rw [if_pos h3] at hd
    exact (by decide : ∀ x ∈ ("&gt;" : String).data, ¬ markupChar x) d hd
  rw [if_neg h3] at hd
  by_cases h4 : c = quoteChar
  · rw [if_pos h4] at hd
    exact (by decide : ∀ x ∈ ("&quot;" : String).data, ¬ markupChar x) d hd
  rw [if_neg h4] at hd
  by_cases h5 : c = aposChar
  · rw [if_pos h5] at hd
    exact (by decide : ∀ x ∈ ("&#39;" : String).data, ¬ markupChar x) d hd
  rw [if_neg h5] at hd
  have hd' : d ∈ [c] := hd
  rcases List.mem_singleton.mp hd' with rfl
  intro hm
  unfold markupChar at hm
  rcases hm with h | h | h | h
  · exact h2 h
  · exact h3 h
  · exact h4 h
  · exact h5 h

theorem escapeChars_no_markup : ∀ l : List Char, ∀ d ∈ escapeChars l, ¬ markupChar d
  | [], d, hd => by cases hd
  | c :: cs, d, hd => by
      unfold escapeChars at hd
      rcases List.mem_append.mp hd with h | h
      · exact escapeChar_no_markup c d h
      · exact escapeChars_no_markup cs d h

theorem digitChar_lt_no_markup (k : Nat) (hk : k < 16) : ¬ markupChar (Nat.digitChar k) := by
  interval_cases k <;> decide

theorem toDigitsCore_no_markup : ∀ (fuel n : Nat) (ds : List Char),
    (∀ c ∈ ds, ¬ markupChar c) → ∀ c ∈ Nat.toDigitsCore 10 fuel n ds, ¬ markupChar c
  | 0, _, _, hds => hds
  | fuel + 1, n, ds, hds => by
      have hstep : Nat.toDigitsCore 10 (fuel + 1) n ds =
          if n / 10 = 0 then Nat.digitChar (n % 10) :: ds
          else Nat.toDigitsCore 10 fuel (n / 10) (Nat.digitChar (n % 10) :: ds) := rfl
      rw [hstep]
      have hd : ∀ c ∈ Nat.digitChar (n % 10) :: ds, ¬ markupChar c := by
        intro c hc
        rcases List.mem_cons.mp hc with rfl | hc
        · exact digitChar_lt_no_markup (n % 10) (by omega)
        · exact hds c hc
      split
      · exact hd
      · exact toDigitsCore_no_markup fuel (n / 10) _ hd

theorem natRepr_no_markup (n : Nat) : ∀ c ∈ (Nat.repr n).data, ¬ markupChar c := by
  have h : (Nat.repr n).data = Nat.toDigitsCore 10 (n + 1) n [] := rfl
  rw [h]
  exact toDigitsCore_no_markup (n + 1) n [] (by intro c hc; cases hc)

theorem intToString_no_markup (y : Int) : ∀ c ∈ (toString y).data, ¬ markupChar c := by
  cases y with
  | ofNat m => exact natRepr_no_markup m
  | negSucc m =>
      intro c hc
      have h : (toString (Int.negSucc m)).data = '-' :: (Nat.repr (m + 1)).data := rfl
      rw [h] at hc
      rcases List.mem_cons.mp hc with rfl | hc
      · decide
      · exact natRepr_no_markup _ c hc

theorem yearDisp_no_markup (y : Option Int) : ∀ c ∈ (yearDisp y).data, ¬ markupChar c := by
  intro c hc
  cases y with
  | none =>
      have h : (yearDisp none).data = [] := rfl
      rw [h] at hc
      exact absurd hc (List.not_mem_nil c)
  | some v =>
      by_cases h : v = 0
      · rw [show yearDisp (some v) = "" by simp [yearDisp, h]] at hc
        exact absurd hc (List.not_mem_nil c)
      · rw [show yearDisp (some v) = toString v by simp [yearDisp, h]] at hc
        exact intToString_no_markup v c hc

/-! ### C3: rendering escapes record text -/

/-- C3: every piece of record-derived text interpolated into the card
markup built by `renderShelf` — the escaped title, escaped authors,
escaped abstract, and the year rendering — contains no raw markup
character (`<`, `>`, `"`, `'`); and the claim's example payload
`<script>` escapes to `&lt;script&gt;`, so a title containing it yields
no executable markup in the card. -/
theorem c3_render_escapes :
    (∀ p : Publication, ∀ s ∈ cardInsertions p, ∀ c ∈ s.data, ¬ markupChar c) ∧
    escapeHTML "<script>" = "&lt;script&gt;" := by
  constructor
  · intro p s hs c hc
    unfold cardInsertions at hs
    simp only [List.mem_cons, List.mem_singleton, List.not_mem_nil, or_false] at hs
    rcases hs with rfl | rfl | rfl | rfl
    · exact escapeChars_no_markup p.title.data c hc
    · exact escapeChars_no_markup (orEmpty p.authors).data c hc
    · exact escapeChars_no_markup (orEmpty p.abstract).data c hc
    · exact yearDisp_no_markup p.year c hc
  · decide

/-- Witness for C3: the escaped evil title is one of the interpolated
pieces, and its leading escape character is harmless. -/
theorem c3_render_escapes_witness : ¬ markupChar '&' :=
  c3_render_escapes.1 pEvil (escapeHTML pEvil.title) (by decide) '&' (by decide)

/-! ### C6: the copy-BibTeX action -/

theorem synthBibtex_includes_title (p : Publication) :
    strIncludes (synthBibtex p) p.title = true := by
  unfold strIncludes synthBibtex
  simp only [String.data_append, List.append_assoc]
  apply subMatch_append_left
  apply subMatch_append_left
  apply subMatch_append_left
  apply subMatch_append_left
  exact subMatch_self_append _ _

theorem synthBibtex_includes_year (p : Publication) :
    strIncludes (synthBibtex p) (yearString p.year) = true := by
  unfold strIncludes synthBibtex
  simp only [String.data_append, List.append_assoc]
  apply subMatch_append_left
  apply subMatch_append_left
  apply subMatch_append_left
  apply subMatch_append_left
  apply subMatch_append_left
  apply subMatch_append_left
  apply subMatch_append_left
  apply subMatch_append_left
  exact subMatch_self_append _ _

/-- C6: the claim says the copy action copies the stored `bibtex` string
exactly whenever the field is present. False: an empty stored string is
falsy in JS (`if (!bibtex)`), so the non-empty synthesized citation is
copied instead of the stored empty string. -/
theorem c6_counterexample :
    pEmptyBib.bibtex = some "" ∧ copiedBibtex pEmptyBib ≠ "" := by
  decide

/-- C6 (amended): when `bibtex` is present and non-empty the stored string
is copied exactly and unmodified; when it is absent — or stored as the
empty string, which is equally falsy for `if (!bibtex)` — the synthesized
citation contains the record's year (its `String(p.year)` rendering) and
the record's title. -/
theorem c6_copy_bibtex (p : Publication) :
    (∀ b, p.bibtex = some b → b ≠ "" → copiedBibtex p = b) ∧
    (p.bibtex = none ∨ p.bibtex = some "" →
      strIncludes (copiedBibtex p) (yearString p.year) = true ∧
      strIncludes (copiedBibtex p) p.title = true) := by
  constructor
  · intro b hb hne
    unfold copiedBibtex
    rw [hb]
    simp [hne]
  · intro hb
    have hcb : copiedBibtex p = synthBibtex p := by
      unfold copiedBibtex
      rcases hb with hb | hb
      · rw [hb]
      · rw [hb]
        simp
    rw [hcb]
    exact ⟨synthBibtex_includes_year p, synthBibtex_includes_title p⟩

/-- Witness for C6 (amended) at concrete records: one exact copy of a
non-empty stored string, and the synthesized-year conjunct at the record
whose stored `bibtex` is the empty string. -/
theorem c6_copy_bibtex_witness :
    copiedBibtex { title := "T", bibtex := some "@misc" } = "@misc" ∧
    strIncludes (copiedBibtex pEmptyBib) (yearString pEmptyBib.year) = true :=
  ⟨(c6_copy_bibtex { title := "T", bibtex := some "@misc" }).1 "@misc" rfl (by decide),
    ((c6_copy_bibtex pEmptyBib).2 (Or.inr rfl)).1⟩

/-! ### C7 and C9: the modal controller -/

/-- C7: the claim says the DOI link is shown iff `doi` is present. False:
a present-but-empty `doi` is falsy in JS (`if (paper.doi)`), so the link
is hidden although the field is present. -/
theorem c7_counterexample :
    pDoiEmpty.doi.isSome = true ∧ (openModal pDoiEmpty m0).doiVisible = false := by
  decide

/-- C7 (amended): the DOI link is shown iff `doi` is present and
non-empty; a shown bare identifier (one not starting with `"http"`)
resolves to the canonical `https://doi.org/` URL; and the external link
is shown iff `link` is present and non-empty. -/
theorem c7_modal_links (p : Publication) (m : ModalState) :
    ((openModal p m).doiVisible = true ↔ ∃ d, p.doi = some d ∧ d ≠ "") ∧
    (∀ d, p.doi = some d → d ≠ "" → strStartsWith d "http" = false →
      (openModal p m).doiHref = "https://doi.org/" ++ d) ∧
    ((openModal p m).linkVisible = true ↔ ∃ u, p.link = some u ∧ u ≠ "") := by
  refine ⟨?_, ?_, ?_⟩
  · rcases hd : p.doi with _ | d <;> rcases hl : p.link with _ | u <;>
      simp [openModal, hd, hl] <;> split_ifs <;> simp_all
  · intro d hd hne hbare
    rcases hl : p.link with _ | u <;>
      simp [openModal, hd, hl, doiHrefOf, hne, hbare]
    all_goals split_ifs <;> simp_all
  · rcases hd : p.doi with _ | d <;> rcases hl : p.link with _ | u <;>
      simp [openModal, hd, hl] <;> split_ifs <;> simp_all

/-- Witness for C7 (amended): a concrete bare DOI resolves canonically. -/
theorem c7_modal_links_witness :
    (openModal { title := "T", doi := some "10.1/x" } m0).doiHref = "https://doi.org/10.1/x" :=
  (c7_modal_links { title := "T", doi := some "10.1/x" } m0).2.1 "10.1/x" rfl
    (by decide) (by decide)

/-- C9: the visible modal content after `openModal(B)` — the four text
fields, plus the link `href`s only while their anchors are displayed — is
determined solely by `B`: it is independent of the prior modal state, in
particular of any record opened before (the stale hidden `href` kept for a
falsy `doi`/`link` is not visible). -/
theorem c9_modal_no_residual (b : Publication) (m1 m2 : ModalState) :
    visibleView (openModal b m1) = visibleView (openModal b m2) ∧
    ∀ a : Publication, visibleView (openModal b (openModal a m1)) =
      visibleView (openModal b m1) := by
  have key : ∀ m m' : ModalState,
      visibleView (openModal b m) = visibleView (openModal b m') := by
    intro m m'
    rcases hd : b.doi with _ | d <;> rcases hl : b.link with _ | u <;>
      simp [openModal, visibleView, hd, hl] <;> split_ifs <;> simp_all
  exact ⟨key m1 m2, fun a => key (openModal a m1) m1⟩

end Portfolio
